import Mathlib

/-!
A verification development for the SQL safety-validation pipeline in
`backend/validators.py`: shallow embeddings of the three validation rules
(`ForbiddenKeywordsRule`, `OnlySelectStatementsRule`, `WhitelistedTablesRule`)
and of `RuleExecutor`, together with an abstract model of the external
`sqlparse` collaborator (leaf tokens, grouped token trees, `flatten`,
`token_first`).
-/

/-- Python `str.lower` on one character, restricted to ASCII letters (the
only case the validator's inputs exercise). -/
def pyLowerChar (c : Char) : Char :=
  if 'A' ≤ c && c ≤ 'Z' then Char.ofNat (c.toNat + 32) else c

/-- Python `str.lower` (ASCII model). -/
def pyLower (s : String) : String :=
  String.mk (s.toList.map pyLowerChar)

/-- The ASCII whitespace characters Python `str.strip` removes. -/
def pyIsSpace (c : Char) : Bool :=
  c == ' ' || c == '\t' || c == '\n' || c == '\r' || c == '\x0b' || c == '\x0c'

/-- Python `str.strip` on a character list: drop whitespace from both ends. -/
def pyStripChars (l : List Char) : List Char :=
  ((l.dropWhile pyIsSpace).reverse.dropWhile pyIsSpace).reverse

/-- Python `str.strip`. -/
def pyStrip (s : String) : String :=
  String.mk (pyStripChars s.toList)

/-- Does char list `p` occur at the head of `l`? (Helper for Python `in`.) -/
def headMatches : List Char → List Char → Bool
  | [], _ => true
  | _ :: _, [] => false
  | a :: p, b :: l => a == b && headMatches p l

/-- Python substring containment `p in l`, scanning every start position. -/
def listSub (p : List Char) : List Char → Bool
  | [] => p.isEmpty
  | l@(_ :: rest) => headMatches p l || listSub p rest

/-- Python substring containment on strings. -/
def strSub (p s : String) : Bool :=
  listSub p.toList s.toList

/-- `ForbiddenKeywordsRule.FORBIDDEN_KEYWORDS` from `validators.py`. -/
def ForbiddenKeywordsRule.FORBIDDEN_KEYWORDS : List String :=
  ["insert ", "update ", "delete ", "drop ", "alter ", "truncate ",
   "create ", "exec ", "xp_"]

/-- `ForbiddenKeywordsRule.validate`: strip and lower the query, fail when
any forbidden keyword occurs as a substring. -/
def ForbiddenKeywordsRule.validate (sql_query : String) : Bool × String :=
  let lower_query := pyLower (pyStrip sql_query)
  if ForbiddenKeywordsRule.FORBIDDEN_KEYWORDS.any
      (fun keyword => strSub keyword lower_query) then
    (false, "Forbidden SQL keywords detected. Only SELECT queries are allowed.")
  else
    (true, "")

theorem headMatches_iff (p : List Char) :
    ∀ l : List Char, headMatches p l = true ↔ p <+: l := by
  induction p with
  | nil => intro l; simp [headMatches]
  | cons a p ih =>
    intro l
    cases l with
    | nil => simp [headMatches]
    | cons b l => simp [headMatches, List.cons_prefix_cons, ih]

theorem listSub_iff (p : List Char) :
    ∀ l : List Char, listSub p l = true ↔ p <:+: l := by
  intro l
  induction l with
  | nil => simp [listSub, List.isEmpty_iff]
  | cons b l ih => simp [listSub, List.infix_cons_iff, headMatches_iff, ih]

/-- A leaf token of the external `sqlparse` collaborator: raw text `value`,
canonical `normalized` text (uppercased for keywords), plus the
`is_whitespace` flag `isWs` and the `is_keyword` flag `isKw`. -/
structure Token where
  value : String
  normalized : String
  isWs : Bool
  isKw : Bool

/-- A node of a parsed `sqlparse` token tree: either a leaf `Token`, a
`Parenthesis` group, or any other grouped node (`Identifier`, `Function`,
`Comment`, ...), each owning its ordered children. -/
inductive SqlNode where
  | tok (t : Token)
  | paren (children : List SqlNode)
  | group (children : List SqlNode)

/-- Concatenated raw text of all leaves of a node list: the `value` of a
`sqlparse` `TokenList`. -/
def valueMany : List SqlNode → String
  | [] => ""
  | .tok t :: rest => t.value ++ valueMany rest
  | .paren cs :: rest => valueMany cs ++ valueMany rest
  | .group cs :: rest => valueMany cs ++ valueMany rest

/-- `Token.normalized` in `sqlparse`: leaves carry their own normalized
text; a group's normalized text is its concatenated value. -/
def SqlNode.normalized : SqlNode → String
  | .tok t => t.normalized
  | .paren cs => valueMany cs
  | .group cs => valueMany cs

/-- `Token.is_whitespace`: true only for whitespace leaf tokens; a grouped
node is never whitespace. -/
def SqlNode.isWhitespace : SqlNode → Bool
  | .tok t => t.isWs
  | _ => false

/-- `Token.is_keyword`: true only for keyword leaf tokens; a grouped node
(`ttype` None) is never a keyword. -/
def SqlNode.isKeyword : SqlNode → Bool
  | .tok t => t.isKw
  | _ => false

/-- `isinstance(token, Parenthesis)`. -/
def SqlNode.isParen : SqlNode → Bool
  | .paren _ => true
  | _ => false

/-- A parsed `sqlparse` statement: the ordered list of its top-level
child nodes. -/
abbrev Statement := List SqlNode

/-- `TokenList.flatten` from `sqlparse`: yield ungrouped (leaf) tokens
only, recursing into every grouped node in source order. -/
def flattenMany : List SqlNode → List SqlNode
  | [] => []
  | .tok t :: rest => .tok t :: flattenMany rest
  | .paren cs :: rest => flattenMany cs ++ flattenMany rest
  | .group cs :: rest => flattenMany cs ++ flattenMany rest

/-- `TokenList.token_first(skip_ws=True)`: the first top-level child that
is not whitespace. -/
def tokenFirstSkipWs (st : Statement) : Option SqlNode :=
  st.find? (fun n => !n.isWhitespace)

/-- The result of `sqlparse.parse`: a statement list on success, or the
message of the raised exception. Rules receive this parse outcome. -/
abbrev ParseResult := Except String (List Statement)

/-- The per-statement loop of `OnlySelectStatementsRule.validate`. -/
def onlySelectLoop : List Statement → Bool × String
  | [] => (true, "")
  | statement :: rest =>
    match tokenFirstSkipWs statement with
    | none =>
      (false, "Invalid SQL statement structure: Cannot determine statement type.")
    | some first_token =>
      if first_token.normalized == "SELECT" then onlySelectLoop rest
      else
        (false, "Forbidden statement type '" ++ first_token.normalized
          ++ "' detected. Only SELECT queries are allowed.")

/-- `OnlySelectStatementsRule.validate` on the outcome of
`sqlparse.parse`: empty parse fails, a raised parse exception is caught
and converted to a failing verdict, otherwise every statement's first
non-whitespace token must normalize to SELECT. -/
def OnlySelectStatementsRule.validate : ParseResult → Bool × String
  | .error e => (false, "SQL parsing error during statement type check: " ++ e)
  | .ok parsed_statements =>
    if parsed_statements.isEmpty then
      (false, "No valid SQL statements found.")
    else
      onlySelectLoop parsed_statements

/-- Strip all leading and trailing copies of one character (Python
`str.strip` with an explicit character argument). -/
def pyStripChar (c : Char) (l : List Char) : List Char :=
  ((l.dropWhile (· == c)).reverse.dropWhile (· == c)).reverse

/-- The candidate normalization of `WhitelistedTablesRule`:
`.strip('"').strip("'").strip(backtick).lower()`. -/
def stripQuotesLower (s : String) : String :=
  pyLower (String.mk (pyStripChar (Char.ofNat 96)
    (pyStripChar (Char.ofNat 39) (pyStripChar (Char.ofNat 34) s.toList))))

/-- Is this node a keyword whose normalized text is FROM or JOIN? -/
def isFromJoin (n : SqlNode) : Bool :=
  n.isKeyword && (n.normalized == "FROM" || n.normalized == "JOIN")

/-- The indexed scan of `WhitelistedTablesRule.validate` over the
flattened token stream, as a recursion over suffixes: at each FROM/JOIN
keyword, the forward scan for the table-name candidate inspects exactly
the remaining suffix, and `continue` resumes at the next position. -/
def whitelistLoop (allowed : List String) : List SqlNode → Bool × String
  | [] => (true, "")
  | token :: rest =>
    if isFromJoin token then
      match rest.find? (fun n => !n.isWhitespace) with
      | none => (false, "Could not identify table name after FROM/JOIN clause.")
      | some cand =>
        if cand.isParen then whitelistLoop allowed rest
        else
          let table_name := stripQuotesLower cand.normalized
          if allowed.contains table_name then whitelistLoop allowed rest
          else
            (false, "Access to table/object '" ++ table_name
              ++ "' is not allowed.")
    else whitelistLoop allowed rest

/-- `WhitelistedTablesRule.validate` with constructor argument
`allowed_tables` (lower-cased at construction, as in `__init__`): walk the
flattened token stream of the first parsed statement only. -/
def WhitelistedTablesRule.validate (allowed_tables : List String) :
    ParseResult → Bool × String
  | .error e => (false, "SQL parsing error during table whitelist check: " ++ e)
  | .ok [] => (false, "No valid SQL statements found for table check.")
  | .ok (statement :: _) =>
    whitelistLoop (allowed_tables.map pyLower) (flattenMany statement)

/-- A validation rule as `RuleExecutor` consumes it: `validate` applied to
the raw SQL string, yielding a verdict pair. -/
abbrev RuleFun := String → Bool × String

/-- `RuleExecutor.execute_rules`: run the rules in order, return the first
failing verdict, or `(true, "All rules passed.")` when all pass. -/
def RuleExecutor.execute_rules (rules : List RuleFun) (sql_query : String) :
    Bool × String :=
  match rules with
  | [] => (true, "All rules passed.")
  | rule :: rest =>
    let v := rule sql_query
    if v.1 then RuleExecutor.execute_rules rest sql_query
    else (false, v.2)

theorem flattenMany_no_paren (l : List SqlNode) :
    ∀ n ∈ flattenMany l, n.isParen = false := by
  induction l using flattenMany.induct with
  | case1 => simp [flattenMany]
  | case2 t rest ih =>
    intro n h
    simp only [flattenMany, List.mem_cons] at h
    cases h with
    | inl h => subst h; rfl
    | inr h => exact ih n h
  | case3 cs rest ih1 ih2 =>
    simp only [flattenMany, List.mem_append]
    intro n h
    cases h with
    | inl h => exact ih1 n h
    | inr h => exact ih2 n h
  | case4 cs rest ih1 ih2 =>
    simp only [flattenMany, List.mem_append]
    intro n h
    cases h with
    | inl h => exact ih1 n h
    | inr h => exact ih2 n h

theorem forbidden_any_iff (s : String) :
    (ForbiddenKeywordsRule.FORBIDDEN_KEYWORDS.any
        (fun keyword => strSub keyword (pyLower (pyStrip s)))) = true
      ↔ ∃ kw ∈ ForbiddenKeywordsRule.FORBIDDEN_KEYWORDS,
          kw.toList <:+: (pyLower (pyStrip s)).toList := by
  simp [List.any_eq_true, strSub, listSub_iff]

/-- C1: `ForbiddenKeywordsRule.validate` fails with the fixed message
exactly when the lower-cased, whitespace-trimmed query contains one of the
forbidden substrings anywhere, and passes with an empty message otherwise;
in particular "DROP TABLE client" fails with that message, while
`create ` does not match inside the longer identifier `created_at`. -/
theorem C1_forbidden_keywords_rule :
    (∀ s : String,
      (ForbiddenKeywordsRule.validate s
          = (false, "Forbidden SQL keywords detected. Only SELECT queries are allowed.")
        ↔ ∃ kw ∈ ForbiddenKeywordsRule.FORBIDDEN_KEYWORDS,
            kw.toList <:+: (pyLower (pyStrip s)).toList)
      ∧ (ForbiddenKeywordsRule.validate s = (true, "")
        ↔ ¬ ∃ kw ∈ ForbiddenKeywordsRule.FORBIDDEN_KEYWORDS,
            kw.toList <:+: (pyLower (pyStrip s)).toList))
    ∧ ForbiddenKeywordsRule.validate "DROP TABLE client"
        = (false, "Forbidden SQL keywords detected. Only SELECT queries are allowed.")
    ∧ ForbiddenKeywordsRule.validate "SELECT created_at FROM positions"
        = (true, "") := by
  refine ⟨fun s => ?_, by decide, by decide⟩
  rw [← forbidden_any_iff s]
  unfold ForbiddenKeywordsRule.validate
  by_cases h : (ForbiddenKeywordsRule.FORBIDDEN_KEYWORDS.any
      (fun keyword => strSub keyword (pyLower (pyStrip s)))) = true
  · simp [h]
  · simp [h]

/-- C9: a forbidden keyword sitting at the very end of the trimmed input is
missed, because every forbidden pattern except `xp_` carries a trailing
space: both "SELECT 1; drop" and the bare word "delete" pass the rule. -/
theorem C9_trailing_keyword_gap :
    ForbiddenKeywordsRule.validate "SELECT 1; drop" = (true, "")
    ∧ ForbiddenKeywordsRule.validate "delete" = (true, "") :=
  ⟨by decide, by decide⟩

/-- A keyword leaf token as `sqlparse` produces it (normalized uppercase). -/
def kwTok (s : String) : SqlNode :=
  .tok ⟨s, s, false, true⟩

/-- A single-space whitespace leaf token. -/
def wsTok : SqlNode :=
  .tok ⟨" ", " ", true, false⟩

/-- A name wrapped in an `Identifier` group, as `sqlparse` parses a bare
column or table name. -/
def nameTok (s : String) : SqlNode :=
  .group [.tok ⟨s, s, false, false⟩]

/-- A punctuation or literal leaf token. -/
def punctTok (s : String) : SqlNode :=
  .tok ⟨s, s, false, false⟩

/-- Parse tree of `SELECT a FROM t`. -/
def selectAFromT : Statement :=
  [kwTok "SELECT", wsTok, nameTok "a", wsTok, kwTok "FROM", wsTok, nameTok "t"]

/-- Parse tree of `SELECT name FROM secret_table`. -/
def selectNameFromSecret : Statement :=
  [kwTok "SELECT", wsTok, nameTok "name", wsTok, kwTok "FROM", wsTok,
   nameTok "secret_table"]

/-- Parse tree of ` DROP TABLE client` (as the second statement after a
semicolon split, it starts with whitespace). -/
def dropTableClient : Statement :=
  [wsTok, kwTok "DROP", wsTok, kwTok "TABLE", wsTok, nameTok "client"]

/-- Parse tree of `SELECT 1`. -/
def selectOne : Statement :=
  [kwTok "SELECT", wsTok, punctTok "1"]

/-- Parse tree of `SELECT * FROM (SELECT a FROM t) AS x`: the subquery is
a `Parenthesis` group whose children include the `(` and `)` punctuation
leaves. -/
def selectFromSubquery : Statement :=
  [kwTok "SELECT", wsTok, punctTok "*", wsTok, kwTok "FROM", wsTok,
   .paren [punctTok "(", kwTok "SELECT", wsTok, nameTok "a", wsTok,
           kwTok "FROM", wsTok, nameTok "t", punctTok ")"],
   wsTok, kwTok "AS", wsTok, nameTok "x"]

theorem onlySelectLoop_eq_true_iff (stmts : List Statement) :
    onlySelectLoop stmts = (true, "")
      ↔ ∀ st ∈ stmts, ∃ ft, tokenFirstSkipWs st = some ft
          ∧ ft.normalized = "SELECT" := by
  induction stmts with
  | nil => simp [onlySelectLoop]
  | cons st rest ih =>
    cases h : tokenFirstSkipWs st with
    | none => simp [onlySelectLoop, h]
    | some ft =>
      by_cases hsel : ft.normalized = "SELECT"
      · simp [onlySelectLoop, h, hsel, ih]
      · simp [onlySelectLoop, h, hsel]

/-- C2: `OnlySelectStatementsRule.validate` passes exactly when the parse
yields at least one statement and every statement's first non-whitespace
token exists and normalizes to SELECT; an empty parse, a statement with no
non-whitespace token, and a non-SELECT leading token each produce the
corresponding failing verdict, the last naming the statement type. -/
theorem C2_only_select_statements_rule :
    (∀ stmts : List Statement,
      OnlySelectStatementsRule.validate (.ok stmts) = (true, "")
        ↔ stmts ≠ []
          ∧ ∀ st ∈ stmts, ∃ ft, tokenFirstSkipWs st = some ft
              ∧ ft.normalized = "SELECT")
    ∧ OnlySelectStatementsRule.validate (.ok [])
        = (false, "No valid SQL statements found.")
    ∧ OnlySelectStatementsRule.validate (.ok [[wsTok]])
        = (false, "Invalid SQL statement structure: Cannot determine statement type.")
    ∧ OnlySelectStatementsRule.validate (.ok [selectAFromT, dropTableClient])
        = (false, "Forbidden statement type 'DROP' detected. Only SELECT queries are allowed.") := by
  refine ⟨fun stmts => ?_, by decide, by decide, by decide⟩
  cases stmts with
  | nil => simp [OnlySelectStatementsRule.validate]
  | cons st rest =>
    simp [OnlySelectStatementsRule.validate, onlySelectLoop_eq_true_iff]

/-- Spec-side reading of the claim: the table-name candidates of a token
stream, one entry per FROM/JOIN keyword position — the next
non-whitespace token after it, or `none` when the stream ends first. -/
def fromJoinCandidates : List SqlNode → List (Option SqlNode)
  | [] => []
  | token :: rest =>
    if isFromJoin token then
      rest.find? (fun n => !n.isWhitespace) :: fromJoinCandidates rest
    else fromJoinCandidates rest

/-- Spec-side reading of the claim: the verdict one candidate earns — a
missing candidate fails, a parenthesized group is skipped, and otherwise
the delimiter-stripped, case-folded name must be in the allowed set. -/
def candidateVerdict (allowed : List String) : Option SqlNode → Option String
  | none => some "Could not identify table name after FROM/JOIN clause."
  | some cand =>
    if cand.isParen then none
    else if allowed.contains (stripQuotesLower cand.normalized) then none
    else
      some ("Access to table/object '" ++ stripQuotesLower cand.normalized
        ++ "' is not allowed.")

/-- Spec-side reading of the claim: the first failing candidate's message,
in stream order. -/
def firstViolation (allowed : List String) (stream : List SqlNode) :
    Option String :=
  ((fromJoinCandidates stream).filterMap (candidateVerdict allowed)).head?

theorem whitelistLoop_eq_firstViolation (allowed : List String)
    (stream : List SqlNode) :
    whitelistLoop allowed stream
      = match firstViolation allowed stream with
        | none => (true, "")
        | some m => (false, m) := by
  induction stream with
  | nil => simp [whitelistLoop, firstViolation, fromJoinCandidates]
  | cons token rest ih =>
    by_cases hfj : isFromJoin token = true
    · cases hc : rest.find? (fun n => !n.isWhitespace) with
      | none =>
        simp [whitelistLoop, firstViolation, fromJoinCandidates, hfj, hc,
          candidateVerdict]
      | some cand =>
        by_cases hp : cand.isParen = true
        · simpa [whitelistLoop, firstViolation, fromJoinCandidates, hfj, hc,
            candidateVerdict, hp] using ih
        · by_cases ha : stripQuotesLower cand.normalized ∈ allowed
          · simpa [whitelistLoop, firstViolation, fromJoinCandidates, hfj, hc,
              candidateVerdict, hp, ha, List.findSome?_cons] using ih
          · simp [whitelistLoop, firstViolation, fromJoinCandidates, hfj, hc,
              candidateVerdict, hp, ha, List.findSome?_cons]
    · simpa [whitelistLoop, firstViolation, fromJoinCandidates, hfj] using ih

/-- C3: `WhitelistedTablesRule.validate` on a non-empty parse walks the
first statement's flattened stream and returns the first FROM/JOIN
candidate's failing verdict — the delimiter-stripped, case-folded name
with the exact message — or passes when every candidate resolves to an
allowed name; `SELECT name FROM secret_table` against
client_info_view/positions fails with exactly that message. -/
theorem C3_whitelisted_tables_rule :
    (∀ (allowed_tables : List String) (st : Statement) (rest : List Statement),
      WhitelistedTablesRule.validate allowed_tables (.ok (st :: rest))
        = match firstViolation (allowed_tables.map pyLower) (flattenMany st) with
          | none => (true, "")
          | some m => (false, m))
    ∧ (∀ (allowed_tables : List String) (st : Statement) (rest : List Statement),
      WhitelistedTablesRule.validate allowed_tables (.ok (st :: rest)) = (true, "")
        ↔ ∀ c ∈ fromJoinCandidates (flattenMany st),
            candidateVerdict (allowed_tables.map pyLower) c = none)
    ∧ WhitelistedTablesRule.validate ["client_info_view", "positions"]
        (.ok [selectNameFromSecret])
        = (false, "Access to table/object 'secret_table' is not allowed.") := by
  refine ⟨fun a st rest => whitelistLoop_eq_firstViolation _ _,
    fun a st rest => ?_, ?_⟩
  · have he : WhitelistedTablesRule.validate a (.ok (st :: rest))
        = whitelistLoop (a.map pyLower) (flattenMany st) := rfl
    rw [he, whitelistLoop_eq_firstViolation (a.map pyLower) (flattenMany st)]
    cases h : firstViolation (a.map pyLower) (flattenMany st) with
    | none =>
      simp only [firstViolation, List.head?_eq_none_iff,
        List.filterMap_eq_nil_iff] at h
      simpa using h
    | some m =>
      simp only [firstViolation] at h
      constructor
      · intro hc; simp at hc
      · intro hall
        rw [List.filterMap_eq_nil_iff.mpr hall] at h
        simp at h
  · simp [WhitelistedTablesRule.validate, selectNameFromSecret, flattenMany,
      whitelistLoop, kwTok, wsTok, nameTok]
    decide

/-- C5: the claim fails on the code. `flatten` yields only ungrouped leaf
tokens, so the candidate after FROM/JOIN is never a `Parenthesis` instance
and the skip on line 75 of `validators.py` is unreachable; for
`SELECT * FROM (SELECT a FROM t) AS x` with `t` whitelisted the rule takes
the `(` punctuation leaf as the table name and rejects the query instead
of passing it. -/
theorem C5_subquery_candidate_rejected :
    (∀ st : Statement, (flattenMany st).all (fun n => !n.isParen) = true)
    ∧ WhitelistedTablesRule.validate ["t"] (.ok [selectFromSubquery])
        = (false, "Access to table/object '(' is not allowed.") := by
  constructor
  · intro st
    simp only [List.all_eq_true]
    intro n h
    simp [flattenMany_no_paren st n h]
  · simp [WhitelistedTablesRule.validate, selectFromSubquery, flattenMany,
      whitelistLoop, kwTok, wsTok, nameTok, punctTok]
    decide

/-- C6: `WhitelistedTablesRule` inspects only the first parsed statement:
the verdict is invariant under replacing every later statement, and a
disallowed table occurring only in the second statement never causes a
failure. -/
theorem C6_only_first_statement_checked :
    (∀ (allowed_tables : List String) (st : Statement)
        (r1 r2 : List Statement),
      WhitelistedTablesRule.validate allowed_tables (.ok (st :: r1))
        = WhitelistedTablesRule.validate allowed_tables (.ok (st :: r2)))
    ∧ WhitelistedTablesRule.validate ["t"]
        (.ok [selectAFromT, selectNameFromSecret]) = (true, "") := by
  refine ⟨fun a st r1 r2 => rfl, ?_⟩
  simp [WhitelistedTablesRule.validate, selectAFromT, flattenMany,
    whitelistLoop, kwTok, wsTok, nameTok]
  decide

theorem whitelistLoop_no_fromjoin (allowed : List String)
    (stream : List SqlNode) (h : ∀ n ∈ stream, isFromJoin n = false) :
    whitelistLoop allowed stream = (true, "") := by
  induction stream with
  | nil => simp [whitelistLoop]
  | cons token rest ih =>
    have ht := h token (List.mem_cons_self token rest)
    simp only [whitelistLoop, ht]
    exact ih (fun n hn => h n (List.mem_cons_of_mem token hn))

/-- C10: when the first statement's flattened stream holds no keyword
token normalized to FROM or JOIN, `WhitelistedTablesRule.validate` passes
with an empty message, whatever the allowed-table set — including the
empty one. -/
theorem C10_no_from_join_vacuous_pass :
    ∀ (allowed_tables : List String) (st : Statement)
      (rest : List Statement),
      (∀ n ∈ flattenMany st, isFromJoin n = false) →
      WhitelistedTablesRule.validate allowed_tables (.ok (st :: rest))
        = (true, "") := by
  intro a st rest h
  exact whitelistLoop_no_fromjoin (a.map pyLower) (flattenMany st) h

/-- Witness for C10 at `SELECT 1` and the empty allowed set. -/
theorem C10_no_from_join_vacuous_pass_witness :
    (∀ n ∈ flattenMany selectOne, isFromJoin n = false)
    ∧ WhitelistedTablesRule.validate [] (.ok [selectOne]) = (true, "") := by
  have h : ∀ n ∈ flattenMany selectOne, isFromJoin n = false := by
    simp only [selectOne, flattenMany, kwTok, wsTok, punctTok]
    decide
  exact ⟨h, C10_no_from_join_vacuous_pass [] selectOne [] h⟩

theorem executeRules_first_fail (r : RuleFun) (rest : List RuleFun)
    (sql : String) (hr : (r sql).1 = false) :
    RuleExecutor.execute_rules (r :: rest) sql = r sql := by
  have h : RuleExecutor.execute_rules (r :: rest) sql = (false, (r sql).2) := by
    simp [RuleExecutor.execute_rules, hr]
  rw [h, ← hr]

theorem executeRules_skip_pass (pre tail : List RuleFun) (sql : String)
    (hpre : ∀ p ∈ pre, (p sql).1 = true) :
    RuleExecutor.execute_rules (pre ++ tail) sql
      = RuleExecutor.execute_rules tail sql := by
  induction pre with
  | nil => rfl
  | cons p pre ih =>
    have hp := hpre p (List.mem_cons_self p pre)
    simp only [List.cons_append, RuleExecutor.execute_rules, hp, if_true]
    exact ih (fun q hq => hpre q (List.mem_cons_of_mem p hq))

theorem executeRules_all_pass (rules : List RuleFun) (sql : String)
    (h : ∀ r ∈ rules, (r sql).1 = true) :
    RuleExecutor.execute_rules rules sql = (true, "All rules passed.") := by
  have := executeRules_skip_pass rules [] sql h
  simpa using this

/-- C4: `execute_rules` evaluates the rules in order; with every rule
before `r` passing and `r` failing, it returns `r`'s verdict verbatim and
its result does not depend on the rules after `r`; when every rule passes
it returns exactly `(true, "All rules passed.")`. -/
theorem C4_rule_executor_fail_fast :
    (∀ (pre : List RuleFun) (r : RuleFun) (rest rest' : List RuleFun)
        (sql : String),
      (∀ p ∈ pre, (p sql).1 = true) → (r sql).1 = false →
      RuleExecutor.execute_rules (pre ++ r :: rest) sql = r sql
      ∧ RuleExecutor.execute_rules (pre ++ r :: rest) sql
          = RuleExecutor.execute_rules (pre ++ r :: rest') sql)
    ∧ (∀ (rules : List RuleFun) (sql : String),
      (∀ p ∈ rules, (p sql).1 = true) →
      RuleExecutor.execute_rules rules sql = (true, "All rules passed.")) := by
  refine ⟨fun pre r rest rest' sql hpre hr => ?_, executeRules_all_pass⟩
  have h1 : RuleExecutor.execute_rules (pre ++ r :: rest) sql = r sql := by
    rw [executeRules_skip_pass pre (r :: rest) sql hpre]
    exact executeRules_first_fail r rest sql hr
  have h2 : RuleExecutor.execute_rules (pre ++ r :: rest') sql = r sql := by
    rw [executeRules_skip_pass pre (r :: rest') sql hpre]
    exact executeRules_first_fail r rest' sql hr
  exact ⟨h1, h1.trans h2.symm⟩

/-- Witness for C4: with no preceding rules, `ForbiddenKeywordsRule` failing
on "DROP TABLE client", and one trailing rule, the executor returns the
failing verdict verbatim and ignores the trailing rule. -/
theorem C4_rule_executor_fail_fast_witness :
    (∀ p ∈ ([] : List RuleFun), (p "DROP TABLE client").1 = true)
    ∧ (ForbiddenKeywordsRule.validate "DROP TABLE client").1 = false
    ∧ RuleExecutor.execute_rules
        ([] ++ ForbiddenKeywordsRule.validate :: [fun _ => (true, "")])
        "DROP TABLE client"
        = ForbiddenKeywordsRule.validate "DROP TABLE client"
    ∧ RuleExecutor.execute_rules
        ([] ++ ForbiddenKeywordsRule.validate :: [fun _ => (true, "")])
        "DROP TABLE client"
        = RuleExecutor.execute_rules
            ([] ++ ForbiddenKeywordsRule.validate :: [])
            "DROP TABLE client" := by
  have h1 : ∀ p ∈ ([] : List RuleFun), (p "DROP TABLE client").1 = true := by
    simp
  have h2 : (ForbiddenKeywordsRule.validate "DROP TABLE client").1 = false := by
    decide
  have h := C4_rule_executor_fail_fast.1 [] ForbiddenKeywordsRule.validate
    [fun _ => (true, "")] [] "DROP TABLE client" h1 h2
  exact ⟨h1, h2, h.1, h.2⟩

theorem str_append3_ne (a b c : String) (h : a.length ≠ 0) :
    a ++ b ++ c ≠ "" := by
  intro hc
  have hl := congrArg String.length hc
  simp [String.length_append] at hl
  omega

theorem str_append2_ne (a b : String) (h : a.length ≠ 0) :
    a ++ b ≠ "" := by
  intro hc
  have hl := congrArg String.length hc
  simp [String.length_append] at hl
  omega

theorem forbidden_shape (s : String) :
    ForbiddenKeywordsRule.validate s = (true, "")
    ∨ ((ForbiddenKeywordsRule.validate s).1 = false
        ∧ (ForbiddenKeywordsRule.validate s).2 ≠ "") := by
  unfold ForbiddenKeywordsRule.validate
  by_cases h : (ForbiddenKeywordsRule.FORBIDDEN_KEYWORDS.any
      (fun keyword => strSub keyword (pyLower (pyStrip s)))) = true
  · right
    refine ⟨by simp [h], by simp [h]⟩
  · left
    simp [h]

theorem onlySelectLoop_shape (stmts : List Statement) :
    onlySelectLoop stmts = (true, "")
    ∨ ((onlySelectLoop stmts).1 = false ∧ (onlySelectLoop stmts).2 ≠ "") := by
  induction stmts with
  | nil => left; rfl
  | cons st rest ih =>
    cases h : tokenFirstSkipWs st with
    | none =>
      right
      refine ⟨by simp [onlySelectLoop, h], by simp [onlySelectLoop, h]⟩
    | some ft =>
      by_cases hsel : ft.normalized = "SELECT"
      · simpa [onlySelectLoop, h, hsel] using ih
      · right
        have hne := str_append3_ne "Forbidden statement type '" ft.normalized
          "' detected. Only SELECT queries are allowed." (by decide)
        refine ⟨by simp [onlySelectLoop, h, hsel], ?_⟩
        simp [onlySelectLoop, h, hsel, hne]

theorem onlySelect_shape (pr : ParseResult) :
    OnlySelectStatementsRule.validate pr = (true, "")
    ∨ ((OnlySelectStatementsRule.validate pr).1 = false
        ∧ (OnlySelectStatementsRule.validate pr).2 ≠ "") := by
  cases pr with
  | error e =>
    right
    refine ⟨rfl, ?_⟩
    exact str_append2_ne "SQL parsing error during statement type check: " e
      (by decide)
  | ok stmts =>
    cases stmts with
    | nil => right; refine ⟨by decide, by decide⟩
    | cons st rest =>
      have h : OnlySelectStatementsRule.validate (.ok (st :: rest))
          = onlySelectLoop (st :: rest) := rfl
      rw [h]
      exact onlySelectLoop_shape (st :: rest)

theorem whitelistLoop_shape (allowed : List String)
    (stream : List SqlNode) :
    whitelistLoop allowed stream = (true, "")
    ∨ ((whitelistLoop allowed stream).1 = false
        ∧ (whitelistLoop allowed stream).2 ≠ "") := by
  induction stream with
  | nil => left; rfl
  | cons token rest ih =>
    by_cases hfj : isFromJoin token = true
    · cases hc : rest.find? (fun n => !n.isWhitespace) with
      | none =>
        right
        refine ⟨by simp [whitelistLoop, hfj, hc], by simp [whitelistLoop, hfj, hc]⟩
      | some cand =>
        by_cases hp : cand.isParen = true
        · simpa [whitelistLoop, hfj, hc, hp] using ih
        · by_cases ha : stripQuotesLower cand.normalized ∈ allowed
          · simpa [whitelistLoop, hfj, hc, hp, ha] using ih
          · right
            refine ⟨by simp [whitelistLoop, hfj, hc, hp, ha], ?_⟩
            simp only [whitelistLoop, hfj, hc, hp, ha]
            simpa [hp, ha] using str_append3_ne "Access to table/object '"
              (stripQuotesLower cand.normalized) "' is not allowed." (by decide)
    · simpa [whitelistLoop, hfj] using ih

theorem whitelist_shape (allowed_tables : List String) (pr : ParseResult) :
    WhitelistedTablesRule.validate allowed_tables pr = (true, "")
    ∨ ((WhitelistedTablesRule.validate allowed_tables pr).1 = false
        ∧ (WhitelistedTablesRule.validate allowed_tables pr).2 ≠ "") := by
  cases pr with
  | error e =>
    right
    refine ⟨rfl, ?_⟩
    exact str_append2_ne "SQL parsing error during table whitelist check: " e
      (by decide)
  | ok stmts =>
    cases stmts with
    | nil =>
      right
      have h : WhitelistedTablesRule.validate allowed_tables (.ok [])
          = (false, "No valid SQL statements found for table check.") := rfl
      rw [h]
      exact ⟨rfl, by decide⟩
    | cons st rest =>
      have h : WhitelistedTablesRule.validate allowed_tables (.ok (st :: rest))
          = whitelistLoop (allowed_tables.map pyLower) (flattenMany st) := rfl
      rw [h]
      exact whitelistLoop_shape (allowed_tables.map pyLower) (flattenMany st)

theorem verdict_iff_of_shape {v : Bool × String}
    (h : v = (true, "") ∨ (v.1 = false ∧ v.2 ≠ "")) :
    (v.2 = "" ↔ v.1 = true) := by
  rcases h with h | ⟨h1, h2⟩
  · rw [h]; simp
  · simp [h1, h2]

theorem executeRules_shape (rules : List RuleFun) (sql : String)
    (h : ∀ r ∈ rules, r sql = (true, "")
        ∨ ((r sql).1 = false ∧ (r sql).2 ≠ "")) :
    RuleExecutor.execute_rules rules sql = (true, "All rules passed.")
    ∨ ((RuleExecutor.execute_rules rules sql).1 = false
        ∧ (RuleExecutor.execute_rules rules sql).2 ≠ "") := by
  induction rules with
  | nil => left; rfl
  | cons r rest ih =>
    rcases h r (List.mem_cons_self r rest) with hr | ⟨h1, h2⟩
    · have he : RuleExecutor.execute_rules (r :: rest) sql
          = RuleExecutor.execute_rules rest sql := by
        simp [RuleExecutor.execute_rules, hr]
      rw [he]
      exact ih (fun q hq => h q (List.mem_cons_of_mem r hq))
    · right
      have he : RuleExecutor.execute_rules (r :: rest) sql
          = (false, (r sql).2) := by
        simp [RuleExecutor.execute_rules, h1]
      rw [he]
      exact ⟨rfl, h2⟩

/-- C7: the rules are total functions into verdict pairs; a parser
exception is absorbed by the `except` branch of each parser-backed rule
and converted to a failing verdict whose message describes a SQL parsing
error, and the executor only ever returns the all-pass verdict or some
rule's own failing verdict — no fault escapes it. -/
theorem C7_exceptions_absorbed :
    (∀ e : String, OnlySelectStatementsRule.validate (.error e)
        = (false, "SQL parsing error during statement type check: " ++ e))
    ∧ (∀ (allowed_tables : List String) (e : String),
        WhitelistedTablesRule.validate allowed_tables (.error e)
          = (false, "SQL parsing error during table whitelist check: " ++ e))
    ∧ (∀ (rules : List RuleFun) (sql : String),
        RuleExecutor.execute_rules rules sql = (true, "All rules passed.")
        ∨ ∃ r ∈ rules,
            RuleExecutor.execute_rules rules sql = (false, (r sql).2)) := by
  refine ⟨fun e => rfl, fun a e => rfl, fun rules sql => ?_⟩
  induction rules with
  | nil => left; rfl
  | cons r rest ih =>
    cases h : (r sql).1 with
    | true =>
      have he : RuleExecutor.execute_rules (r :: rest) sql
          = RuleExecutor.execute_rules rest sql := by
        simp [RuleExecutor.execute_rules, h]
      rw [he]
      rcases ih with h1 | ⟨q, hq, h2⟩
      · left; exact h1
      · right; exact ⟨q, List.mem_cons_of_mem r hq, h2⟩
    | false =>
      right
      refine ⟨r, List.mem_cons_self r rest, ?_⟩
      simp [RuleExecutor.execute_rules, h]

/-- C8 counterexample: on "SELECT 1" the three-rule pipeline executor
returns boolean true paired with the non-empty diagnostic
"All rules passed.", so "empty diagnostic iff pass" is false for
`execute_rules`. -/
theorem C8_executor_nonempty_pass_message :
    (RuleExecutor.execute_rules
        [ForbiddenKeywordsRule.validate,
         fun _ => OnlySelectStatementsRule.validate (.ok [selectOne]),
         fun _ => WhitelistedTablesRule.validate ["t"] (.ok [selectOne])]
        "SELECT 1").1 = true
    ∧ (RuleExecutor.execute_rules
        [ForbiddenKeywordsRule.validate,
         fun _ => OnlySelectStatementsRule.validate (.ok [selectOne]),
         fun _ => WhitelistedTablesRule.validate ["t"] (.ok [selectOne])]
        "SELECT 1").2 ≠ "" := by
  have h1 : ForbiddenKeywordsRule.validate "SELECT 1" = (true, "") := by
    decide
  have h2 : OnlySelectStatementsRule.validate (.ok [selectOne])
      = (true, "") := by
    decide
  have h3 : WhitelistedTablesRule.validate ["t"] (.ok [selectOne])
      = (true, "") := by
    simp [WhitelistedTablesRule.validate, selectOne, flattenMany,
      whitelistLoop, kwTok, wsTok, punctTok, isFromJoin, SqlNode.isKeyword,
      SqlNode.normalized]
  have he : RuleExecutor.execute_rules
      [ForbiddenKeywordsRule.validate,
       fun _ => OnlySelectStatementsRule.validate (.ok [selectOne]),
       fun _ => WhitelistedTablesRule.validate ["t"] (.ok [selectOne])]
      "SELECT 1" = (true, "All rules passed.") := by
    simp [RuleExecutor.execute_rules, h1, h2, h3]
  rw [he]
  exact ⟨rfl, by decide⟩

/-- C8 (amended): each rule's verdict has an empty diagnostic exactly when
its boolean is true, and a pipeline executor over the three rules either
fails with a non-empty diagnostic or passes with the fixed non-empty
message "All rules passed." — the executor's passing diagnostic is not
empty. -/
theorem C8_verdict_invariant_amended :
    (∀ s : String, ((ForbiddenKeywordsRule.validate s).2 = ""
        ↔ (ForbiddenKeywordsRule.validate s).1 = true))
    ∧ (∀ pr : ParseResult, ((OnlySelectStatementsRule.validate pr).2 = ""
        ↔ (OnlySelectStatementsRule.validate pr).1 = true))
    ∧ (∀ (allowed_tables : List String) (pr : ParseResult),
        ((WhitelistedTablesRule.validate allowed_tables pr).2 = ""
          ↔ (WhitelistedTablesRule.validate allowed_tables pr).1 = true))
    ∧ (∀ (parseA parseB : String → ParseResult)
        (allowed_tables : List String) (sql : String),
        RuleExecutor.execute_rules
            [ForbiddenKeywordsRule.validate,
             fun s => OnlySelectStatementsRule.validate (parseA s),
             fun s => WhitelistedTablesRule.validate allowed_tables (parseB s)]
            sql
          = (true, "All rules passed.")
        ∨ ((RuleExecutor.execute_rules
            [ForbiddenKeywordsRule.validate,
             fun s => OnlySelectStatementsRule.validate (parseA s),
             fun s => WhitelistedTablesRule.validate allowed_tables (parseB s)]
            sql).1 = false
          ∧ (RuleExecutor.execute_rules
            [ForbiddenKeywordsRule.validate,
             fun s => OnlySelectStatementsRule.validate (parseA s),
             fun s => WhitelistedTablesRule.validate allowed_tables (parseB s)]
            sql).2 ≠ "")) := by
  refine ⟨fun s => verdict_iff_of_shape (forbidden_shape s),
    fun pr => verdict_iff_of_shape (onlySelect_shape pr),
    fun a pr => verdict_iff_of_shape (whitelist_shape a pr),
    fun parseA parseB a sql => ?_⟩
  apply executeRules_shape
  intro r hr
  simp only [List.mem_cons, List.mem_singleton] at hr
  rcases hr with hr | hr | hr | hr
  · subst hr; exact forbidden_shape sql
  · subst hr; exact onlySelect_shape (parseA sql)
  · subst hr; exact whitelist_shape a (parseB sql)
  · cases hr
